import Mathlib

/-!
Verification of the cldb spec-extraction and reconciliation pipeline.

This file gives a shallow embedding of the Python sources
`camera_lens_database/nikon_z.py`, `camera_lens_database/fetch.py` and
`cldb/cli/fetch.py`, and proves or refutes the specified properties of the
term recognizer, the record assembler, the reconciler, the sorter and the
parallel orchestration against that embedding.

Modelling conventions:
* Python strings are Lean `String`s; character-level work happens on `.data`
  (`List Char`).  `str.lower` is modelled for the ASCII range.
* Python floats are modelled by `ℚ`; every numeric value in the pipeline is
  parsed from a short decimal string, so this is exact.
* Python exceptions become an explicit error type (`ScrapeError`) and
  `Except`; a generator that may raise becomes
  `Except ScrapeError (List _)`.
* Regular-expression uses are embedded as deterministic scanners.  The two
  patterns involved, `([\d\.]+)mm\s*-\s*([\d\.]+)mm` (with `re.match`) and
  `([\d\.]+)\s*(m)` (with `re.findall`), have the property that the greedy,
  never-backtracking scan coincides with Python's backtracking semantics:
  the characters of `[\d\.]` are disjoint from `m`, `-` and whitespace, so
  giving back characters can never complete a match that the greedy scan
  misses.
-/

-- `Rat.mul` and `Rat.add` are `@[irreducible]` in Batteries; making them
-- semireducible lets `decide`/`rfl` evaluate concrete rational arithmetic.
attribute [local semireducible] Rat.mul Rat.add

deriving instance DecidableEq for Except

namespace Cldb

/-- Models Python `str.lower` (ASCII range) applied to a string; both name
and identifier case folding in the sources use `.lower()`. -/
def pyLower (s : String) : String :=
  String.mk (s.data.map Char.toLower)

/-- Character class `[\d\.]` of the numeric patterns in `nikon_z.py`. -/
def isDigitDot (c : Char) : Bool :=
  c.isDigit || c = '.'

/-- Character class `\s` as used by the patterns here (ASCII whitespace). -/
def isSpace (c : Char) : Bool :=
  c = ' ' || c = '\t' || c = '\n' || c = '\r'

/-- Value of a digit list read in base 10 (helper for `parseDecimal`). -/
def digitsVal (cs : List Char) : ℕ :=
  cs.foldl (fun n c => n * 10 + (c.toNat - 48)) 0

/-- Models Python `float(s)` on strings drawn from the `[\d\.]+` character
class: at most one dot and at least one digit are required, otherwise
`float` raises `ValueError`. -/
def parseDecimal (cs : List Char) : Option ℚ :=
  let ip := cs.takeWhile (fun c => c ≠ '.')
  let rest := cs.dropWhile (fun c => c ≠ '.')
  match rest with
  | [] => if ip = [] then none else some (mkRat (digitsVal ip) 1)
  | _ :: fp =>
    if fp.any (fun c => c = '.') then none
    else if ip = [] && fp = [] then none
    else some (mkRat (digitsVal ip * 10 ^ fp.length + digitsVal fp) (10 ^ fp.length))

/-- The spec-table attribute slots of `camera_lens_database/nikon_z.py`
(the `IDX_*` constants imported from the package root). -/
inductive SpecIdx where
  | name
  | brand
  | mount
  | minFocalLength
  | maxFocalLength
  | minFValue
  | maxFValue
  | minFocusDistance
  deriving DecidableEq, Repr

/-- A Python value stored in the `pairs` list of `read_nikon_z_lens`:
either a string (from `re` groups or constants) or a float (the computed
minimum focus distance). -/
inductive PyVal where
  | str (s : String)
  | num (q : ℚ)
  deriving DecidableEq, Repr

/-- The exceptions the extraction code can raise, with the payloads the
Python exceptions carry. -/
inductive ScrapeError where
  /-- `ScraperException(f"pattern unmatched: {value!r}")`: names the raw
  value text. -/
  | patternUnmatched (value : String)
  /-- Python `KeyError` from the `_mount_names` dictionary lookup, carrying
  the missing key. -/
  | keyError (key : String)
  /-- Python `KeyError` from `values[IDX_...]`, carrying the missing slot. -/
  | keyErrorIdx (k : SpecIdx)
  /-- Python `ValueError` from `min([])`: carries no raw text at all. -/
  | valueErrorMinEmpty
  /-- pydantic validation failure coercing a field value. -/
  | validationError
  /-- `ScraperException` for a spec-table row without exactly one th and one
  td. -/
  | malformedTableRow
  deriving DecidableEq, Repr

/-- The `_mount_names` dictionary of `nikon_z.py` as a partial map. -/
def mountNames (v : String) : Option String :=
  if v = "ニコン Z マウント" then some "Nikon Z"
  else if v = "ニコン Zマウント" then some "Nikon Z"
  else none

/-- Anchored match of `([\d\.]+)mm\s*-\s*([\d\.]+)mm` (`re.match` in the
`焦点距離` branch), returning the two captured groups. -/
def matchFocalRange (cs : List Char) : Option (List Char × List Char) :=
  let g1 := cs.takeWhile isDigitDot
  let r1 := cs.dropWhile isDigitDot
  if g1 = [] then none
  else
    match r1 with
    | 'm' :: 'm' :: r2 =>
      match r2.dropWhile isSpace with
      | '-' :: r4 =>
        let r5 := r4.dropWhile isSpace
        let g2 := r5.takeWhile isDigitDot
        let r6 := r5.dropWhile isDigitDot
        if g2 = [] then none
        else
          match r6 with
          | 'm' :: 'm' :: _ => some (g1, g2)
          | _ => none
      | _ => none
    | _ => none

/-- Anchored match of `f/([\d\.]+)` (`re.match` in the aperture branches),
returning the captured group. -/
def matchFSlash (cs : List Char) : Option (List Char) :=
  match cs with
  | 'f' :: '/' :: rest =>
    let g := rest.takeWhile isDigitDot
    if g = [] then none else some g
  | _ => none

/-- One scanning step plus continuation of `re.findall(r"([\d\.]+)\s*(m)", v)`.
The `fuel` argument only bounds the recursion; it is always called with fuel
at least the length of the list, which suffices because each step consumes at
least one character. -/
def findallNumMAux : ℕ → List Char → List (List Char × List Char)
  | 0, _ => []
  | _, [] => []
  | fuel + 1, c :: cs =>
    if isDigitDot c then
      let g := (c :: cs).takeWhile isDigitDot
      let r := (c :: cs).dropWhile isDigitDot
      match r.dropWhile isSpace with
      | 'm' :: r3 => (g, ['m']) :: findallNumMAux fuel r3
      | _ => findallNumMAux fuel cs
    else findallNumMAux fuel cs

/-- Models `re.findall(r"([\d\.]+)\s*(m)", value)`: a left-to-right scan for
non-overlapping matches.  Note the unit group of the source pattern is the
literal `(m)`, so the second component is always `"m"` — a `"mm"` suffix is
never captured as a unit. -/
def findallNumM (cs : List Char) : List (List Char × List Char) :=
  findallNumMAux (cs.length + 1) cs

/-- The `{"m": 1000, "mm": 1}` unit dictionary of the
`最短撮影距離` branch. -/
def unitFactor (u : String) : Option ℚ :=
  if u = "m" then some (mkRat 1000 1)
  else if u = "mm" then some (mkRat 1 1)
  else none

/-- Python `min` over a list, `none` when the list is empty (where Python
raises `ValueError`). -/
def minList (l : List ℚ) : Option ℚ :=
  match l with
  | [] => none
  | x :: xs => some (xs.foldl min x)

/-- One measurement of the `最短撮影距離` branch:
`ratio = {"m": 1000, "mm": 1}[unit]; distances.append(float(number) * ratio)`. -/
def measureDistance (p : List Char × List Char) : Except ScrapeError ℚ := do
  let ratio ← match unitFactor (String.mk p.2) with
    | some r => Except.ok r
    | none => Except.error (ScrapeError.keyError (String.mk p.2))
  let q ← match parseDecimal p.1 with
    | some q => Except.ok q
    | none => Except.error ScrapeError.validationError
  pure (q * ratio)

/-- Shallow embedding of `recognize_nikon_z_term(key, value)` from
`camera_lens_database/nikon_z.py`: the per-label grammar of the Nikon Z
spec table.  The generator is modelled as the list of yielded pairs; a
raised exception becomes an `Except.error`. -/
def recognizeNikonZTerm (key value : String) : Except ScrapeError (List (SpecIdx × PyVal)) :=
  if key = "型式" then
    match mountNames value with
    | some m => Except.ok [(SpecIdx.mount, PyVal.str m)]
    | none => Except.error (ScrapeError.keyError value)
  else if key = "焦点距離" then
    match matchFocalRange value.data with
    | some (g1, g2) =>
      Except.ok [(SpecIdx.minFocalLength, PyVal.str (String.mk g1)),
                 (SpecIdx.maxFocalLength, PyVal.str (String.mk g2))]
    | none => Except.error (ScrapeError.patternUnmatched value)
  else if key = "最短撮影距離" then do
    let ds ← (findallNumM value.data).mapM measureDistance
    match minList ds with
    | some m => Except.ok [(SpecIdx.minFocusDistance, PyVal.num m)]
    | none => Except.error ScrapeError.valueErrorMinEmpty
  else if key = "最小絞り" then
    match matchFSlash value.data with
    | some g => Except.ok [(SpecIdx.minFValue, PyVal.str (String.mk g))]
    | none => Except.error (ScrapeError.patternUnmatched value)
  else if key = "最大絞り" then
    match matchFSlash value.data with
    | some g => Except.ok [(SpecIdx.maxFValue, PyVal.str (String.mk g))]
    | none => Except.error (ScrapeError.patternUnmatched value)
  else
    Except.ok []

/-- The record produced by `read_nikon_z_lens`: the `LensSpec` pydantic
model of the package root (its eight fields are exactly the eight keyword
arguments of the construction at the end of `read_nikon_z_lens`). -/
structure LensSpec where
  name : String
  brand : String
  mount : String
  minFocalLength : ℚ
  maxFocalLength : ℚ
  minFValue : ℚ
  maxFValue : ℚ
  minFocusDistance : ℚ
  deriving DecidableEq, Repr

/-- Lookup in `values = dict(pairs)`: for a duplicated key the later pair
wins, exactly as Python `dict` construction folds duplicates. -/
def dGet (pairs : List (SpecIdx × PyVal)) (k : SpecIdx) : Option PyVal :=
  ((pairs.filter (fun p => p.1 = k)).getLast?).map Prod.snd

/-- `values[k]`: raises `KeyError(k)` when the slot is absent. -/
def keyGet (pairs : List (SpecIdx × PyVal)) (k : SpecIdx) : Except ScrapeError PyVal :=
  match dGet pairs k with
  | some v => Except.ok v
  | none => Except.error (ScrapeError.keyErrorIdx k)

/-- pydantic coercion of a value into a `str` field. -/
def asStr (v : PyVal) : Except ScrapeError String :=
  match v with
  | PyVal.str s => Except.ok s
  | PyVal.num _ => Except.error ScrapeError.validationError

/-- pydantic coercion of a value into a `float` field (`float("24")` and
the like). -/
def asFloat (v : PyVal) : Except ScrapeError ℚ :=
  match v with
  | PyVal.num q => Except.ok q
  | PyVal.str s =>
    match parseDecimal s.data with
    | some q => Except.ok q
    | none => Except.error ScrapeError.validationError

/-- One iteration of the spec-table loop of `read_nikon_z_lens`: a row is a
(`th` texts, `td` texts) pair and must have exactly one of each, otherwise
`ScraperException` is raised; a well-formed row goes through the term
recognizer. -/
def readRow (row : List String × List String) : Except ScrapeError (List (SpecIdx × PyVal)) :=
  match row with
  | ([th], [td]) => recognizeNikonZTerm th td
  | _ => Except.error ScrapeError.malformedTableRow

/-- The `pairs` list of `read_nikon_z_lens` after the spec-table loop:
`[(IDX_NAME, name), (IDX_BRAND, "Nikon")]` followed by everything the
recognizer yielded, with the first raised exception propagated. -/
def assembledPairs (name : String) (rows : List (List String × List String)) :
    Except ScrapeError (List (SpecIdx × PyVal)) := do
  let recs ← rows.mapM readRow
  pure ((SpecIdx.name, PyVal.str name) :: (SpecIdx.brand, PyVal.str "Nikon") :: recs.flatten)

/-- The final construction of `read_nikon_z_lens`: the eight
`values[IDX_...]` dictionary lookups in source order (Python evaluates the
keyword arguments left to right, raising `KeyError` at the first missing
slot), then the pydantic coercions of `LensSpec(...)`. -/
def buildLensSpec (pairs : List (SpecIdx × PyVal)) : Except ScrapeError LensSpec := do
  let vName ← keyGet pairs SpecIdx.name
  let vBrand ← keyGet pairs SpecIdx.brand
  let vMount ← keyGet pairs SpecIdx.mount
  let vMinFL ← keyGet pairs SpecIdx.minFocalLength
  let vMaxFL ← keyGet pairs SpecIdx.maxFocalLength
  let vMinF ← keyGet pairs SpecIdx.minFValue
  let vMaxF ← keyGet pairs SpecIdx.maxFValue
  let vMFD ← keyGet pairs SpecIdx.minFocusDistance
  let nm ← asStr vName
  let br ← asStr vBrand
  let mt ← asStr vMount
  let minFL ← asFloat vMinFL
  let maxFL ← asFloat vMaxFL
  let minF ← asFloat vMinF
  let maxF ← asFloat vMaxF
  let mfd ← asFloat vMFD
  pure { name := nm, brand := br, mount := mt,
         minFocalLength := minFL, maxFocalLength := maxFL,
         minFValue := minF, maxFValue := maxF, minFocusDistance := mfd }

/-- Shallow embedding of `read_nikon_z_lens(name, uri)`: the page is
modelled as the list of already-extracted spec-table rows (HTTP transfer
and HTML tree search are external collaborators).  The surrounding
`try/except` of the source only logs and re-raises, so it does not change
the result. -/
def readNikonZLens (name : String) (rows : List (List String × List String)) :
    Except ScrapeError LensSpec := do
  let pairs ← assembledPairs name rows
  buildLensSpec pairs

/-- A complete, well-formed set of spec-table rows used by several
witnesses below. -/
def sampleRows : List (List String × List String) :=
  [ (["型式"], ["ニコン Z マウント"]),
    (["焦点距離"], ["24mm - 70mm"]),
    (["最短撮影距離"], ["0.5 m（焦点距離50 mm）、0.52 m（焦点距離70 mm）"]),
    (["最小絞り"], ["f/22"]),
    (["最大絞り"], ["f/2.8"]),
    (["レンズ構成"], ["11群14枚"]) ]


/-- Whether an `Except` result is a success (Python: no exception raised). -/
def isOkB {α : Type} (e : Except ScrapeError α) : Bool :=
  match e with
  | Except.ok _ => true
  | Except.error _ => false

/-- A concrete record read from `sampleRows`; used by the witness below. -/
def sampleSpec : LensSpec :=
  { name := "NIKKOR Z 24-70mm f/2.8 S", brand := "Nikon", mount := "Nikon Z",
    minFocalLength := 24, maxFocalLength := 70, minFValue := 22,
    maxFValue := mkRat 28 10, minFocusDistance := 500 }

/-- A full spec table with a duplicated aperture row: nine assembled pairs
for eight required slots. -/
def dupRows : List (List String × List String) :=
  sampleRows ++ [(["最小絞り"], ["f/16"])]

/-- The reconciled equipment record of the `cldb` pipeline (the fields of
the `models.Lens` pydantic model that the code under verification reads or
writes: identifier, display name, the sort-key fields, and keywords). -/
structure Lens where
  id : String
  name : String
  brand : String
  mount : String
  keywords : String
  minFocalLength : ℚ
  maxFocalLength : ℚ
  minFValue : ℚ
  maxFValue : ℚ
  minFocusDistance : ℚ
  deriving DecidableEq, Repr

/-- One Python `dict` insertion on an insertion-ordered association list:
an existing key keeps its position and gets the new value, a new key goes
to the back. -/
def dictUpd (m : List (String × String)) (k v : String) : List (String × String) :=
  if m.any (fun p => p.1 = k) then
    m.map (fun p => if p.1 = k then (k, v) else p)
  else m ++ [(k, v)]

/-- `dict(pairs)` / `Series.to_dict()`: left-to-right insertion, later
values for a duplicate key overwrite in place. -/
def dictOfList (l : List (String × String)) : List (String × String) :=
  l.foldl (fun m p => dictUpd m p.1 p.2) []

/-- The prior-snapshot lookup of `fetch`:
`orig_id_map = {k.lower(): v.lower() for k, v in orig_data.to_dict().items()}`
where `orig_data = pd.read_csv(...).set_index("Name")["ID"]`.  `rows` are
the (Name, ID) pairs of the prior dataset in file order. -/
def buildOrigIdMap (rows : List (String × String)) : List (String × String) :=
  (dictOfList rows).foldl (fun m p => dictUpd m (pyLower p.1) (pyLower p.2)) []

/-- `m.get(k)` on an insertion-ordered dict (keys are unique, so the first
match is the binding). -/
def dictGetS (m : List (String × String)) (k : String) : Option String :=
  (m.find? (fun p => p.1 = k)).map Prod.snd

/-- The identifier carry-forward of the reconciliation loop:
`already_assigned_id = orig_id_map.get(spec.name.lower())`, and on a hit
`spec.id = already_assigned_id`. -/
def reconcileId (m : List (String × String)) (l : Lens) : Lens :=
  match dictGetS m (pyLower l.name) with
  | some i => { l with id := i }
  | none => l

/-- A freshly scraped record whose lowercased name matches the prior row
`("Lens A", "ABC-001")`. -/
def lensA : Lens :=
  { id := "fresh-9", name := "lens a", brand := "Nikon", mount := "Nikon Z",
    keywords := "", minFocalLength := 24, maxFocalLength := 70, minFValue := 22,
    maxFValue := mkRat 28 10, minFocusDistance := 500 }

/-- Python `s.split(",")` (used here to read back the comma-joined keyword
string). -/
def pySplitComma : List Char → List (List Char)
  | [] => [[]]
  | c :: rest =>
    if c = ',' then [] :: pySplitComma rest
    else
      match pySplitComma rest with
      | [] => [[c]]
      | t :: ts => (c :: t) :: ts

/-- Python `s.split(", ")` as used by
`spec.keywords.split(", ")` in the reconciliation loop. -/
def pySplitCommaSpace : List Char → List (List Char)
  | [] => [[]]
  | ',' :: ' ' :: rest => [] :: pySplitCommaSpace rest
  | c :: rest =>
    match pySplitCommaSpace rest with
    | [] => [[c]]
    | t :: ts => (c :: t) :: ts

/-- Python `",".join(parts)`. -/
def pyJoinComma : List (List Char) → List Char
  | [] => []
  | [p] => p
  | p :: ps => p ++ ',' :: pyJoinComma ps

/-- String-level `split(",")`. -/
def splitC (s : String) : List String :=
  (pySplitComma s.data).map String.mk

/-- String-level `split(", ")`. -/
def splitCS (s : String) : List String :=
  (pySplitCommaSpace s.data).map String.mk

/-- String-level `",".join`. -/
def joinC (parts : List String) : String :=
  String.mk (pyJoinComma (parts.map String.data))

/-- The keyword step of the reconciliation loop:
`keywords = utils.infer_keywords(spec)` (the inference itself lives in the
`utils` module, here a parameter) followed by
`if keywords: spec.keywords = ",".join(kw for kw in keywords + spec.keywords.split(", ") if kw)`. -/
def applyInferredKeywords (inferred : List String) (l : Lens) : Lens :=
  if inferred = [] then l
  else { l with
         keywords := joinC ((inferred ++ splitCS l.keywords).filter (fun s => ¬ s = "")) }

/-- A record with prior keywords `"macro, silent"`. -/
def lensK : Lens :=
  { id := "id-1", name := "n", brand := "Nikon", mount := "Nikon Z",
    keywords := "macro, silent", minFocalLength := 24, maxFocalLength := 70,
    minFValue := 22, maxFValue := mkRat 28 10, minFocusDistance := 500 }

/-- A record whose prior keywords already contain `"zoom"`. -/
def lensZ : Lens :=
  { id := "id-2", name := "n", brand := "Nikon", mount := "Nikon Z",
    keywords := "zoom", minFocalLength := 24, maxFocalLength := 70,
    minFValue := 22, maxFValue := mkRat 28 10, minFocusDistance := 500 }

/-- The pandas composite sort key of the fetch command:
`by=[Brand, Mount, MinFocalLength, MaxFocalLength, Name]` with
`key=lambda c: c.str.lower() if str(c) in STR_COLUMNS else c`.  pandas
hands the `key` each sort column as a `Series`, so `str(c)` is the
Series' multi-line repr (values plus `Name:`/`dtype:` footer) — never a
bare column name — and the condition is false for every column: no column
is lowercased.  The effective key is therefore the raw field tuple,
strings compared case-sensitively by code points (as Python compares
`str`), numeric fields numerically, the tuple lexicographically. -/
def lensSortKey (l : Lens) :
    Lex (List Char × Lex (List Char × Lex (ℚ × Lex (ℚ × List Char)))) :=
  toLex (l.brand.data, toLex (l.mount.data,
    toLex (l.minFocalLength, toLex (l.maxFocalLength, l.name.data))))

/-- The comparison used for sorting. -/
def lensLe (a b : Lens) : Bool :=
  decide (lensSortKey a ≤ lensSortKey b)

/-- `df.sort_values(..., kind="mergesort")`: a stable merge sort by the
composite key. -/
def sortLenses (ls : List Lens) : List Lens :=
  ls.mergeSort lensLe

/-- A record named `"Alpha"`. -/
def lensP : Lens :=
  { id := "p", name := "Alpha", brand := "Nikon", mount := "Nikon Z",
    keywords := "", minFocalLength := 24, maxFocalLength := 70, minFValue := 22,
    maxFValue := mkRat 28 10, minFocusDistance := 500 }

/-- The same record but named `"alpha"` (equal brand, mount and numeric
range fields). -/
def lensAlpha : Lens :=
  { lensP with id := "a", name := "alpha" }

/-- The same record but named `"Beta"`: case-insensitively larger than
`"alpha"`, yet smaller by raw code points (`'B'` < `'a'`). -/
def lensBeta : Lens :=
  { lensP with id := "b", name := "Beta" }

/-- Characters allowed in a URL scheme by `urllib.parse`. -/
def isSchemeChar (c : Char) : Bool :=
  c.isAlpha || c.isDigit || c = '+' || c = '-' || c = '.'

/-- Scheme splitting as `urllib.parse.urlparse` does it: a leading
letter-initial run of scheme characters followed by `:`. Returns the
scheme (if any) and the remainder. -/
def splitScheme (cs : List Char) : Option (List Char) × List Char :=
  let s := cs.takeWhile isSchemeChar
  let r := cs.dropWhile isSchemeChar
  match r with
  | ':' :: rest =>
    match s with
    | c :: _ => if c.isAlpha then (some s, rest) else (none, cs)
    | [] => (none, cs)
  | _ => (none, cs)

/-- The netloc of a URL: present only when `//` follows the scheme,
extending to the next `/`, `?` or `#`. -/
def netlocOf (cs : List Char) : Option (List Char) :=
  match (splitScheme cs).2 with
  | '/' :: '/' :: rest =>
    some (rest.takeWhile (fun c => ¬ (c = '/') && ¬ (c = '?') && ¬ (c = '#')))
  | _ => none

/-- Models `urllib.parse.urlparse(url).hostname`: the netloc with any
userinfo (up to the last `@`) and `:port` stripped, lowercased; `None`
when there is no netloc or it is empty. -/
def pyHostname (url : String) : Option String :=
  match netlocOf url.data with
  | none => none
  | some nl =>
    let afterUser := (nl.reverse.takeWhile (fun c => ¬ (c = '@'))).reverse
    let host := (afterUser.takeWhile (fun c => ¬ (c = ':'))).map Char.toLower
    if host = [] then none else some (String.mk host)

/-- Models `urllib.parse.urlparse(url).path` for the reference shapes the
enumerator meets (no query or fragment components occur here). -/
def pyPath (url : String) : String :=
  let r := (splitScheme url.data).2
  let afterNetloc :=
    match r with
    | '/' :: '/' :: rest =>
      rest.dropWhile (fun c => ¬ (c = '/') && ¬ (c = '?') && ¬ (c = '#'))
    | _ => r
  String.mk (afterNetloc.takeWhile (fun c => ¬ (c = '?') && ¬ (c = '#')))

/-- Everything up to and including the last `/`. -/
def dropLastSegment (cs : List Char) : List Char :=
  (cs.reverse.dropWhile (fun c => ¬ (c = '/'))).reverse

/-- The `scheme://netloc` part of an absolute URL. -/
def schemeNetloc (cs : List Char) : List Char :=
  match splitScheme cs with
  | (some s, '/' :: '/' :: rest) =>
    s ++ ':' :: '/' :: '/' ::
      rest.takeWhile (fun c => ¬ (c = '/') && ¬ (c = '?') && ¬ (c = '#'))
  | _ => []

/-- Models `urllib.parse.urljoin(base, rel)` for the shapes used by the
enumerator: a reference with its own scheme is taken as is, a
root-relative reference replaces the base path, and any other relative
reference replaces the last segment of the base path.  (No dot-segment
normalization; none occurs here.) -/
def urljoinModel (base rel : String) : String :=
  match (splitScheme rel.data).1 with
  | some _ => rel
  | none =>
    match rel.data with
    | '/' :: _ => String.mk (schemeNetloc base.data ++ rel.data)
    | _ => String.mk (dropLastSegment base.data ++ rel.data)

/-- Boolean prefix test on character lists (Python `str.startswith`). -/
def listStartsWith : List Char → List Char → Bool
  | [], _ => true
  | _ :: _, [] => false
  | p :: ps, c :: cs => if p = c then listStartsWith ps cs else false

/-- The index page the Nikon Z enumerator scrapes. -/
def nikonZIndexUri : String :=
  "https://www.nikon-image.com/products/nikkor/zmount/index.html"

/-- One anchor of `enumerate_nikon_z_lens`: `javascript:` targets are
silently skipped; then `pr = urlparse(raw_dest)` and
`if pr.hostname and pr.hostname != base_uri:` warn-and-skip — note the
source compares the hostname against the whole `base_uri` string; a
surviving anchor yields the fetch destination
`urljoin(urljoin(base_uri, pr.path), "spec.html")`.  `none` is a skipped
anchor, `some dest` a produced fetch task. -/
def anchorAction (rawDest : String) : Option String :=
  if listStartsWith "javascript:".data rawDest.data then none
  else
    match pyHostname rawDest with
    | some h =>
      if ¬ (h = nikonZIndexUri) then none
      else some (urljoinModel (urljoinModel nikonZIndexUri (pyPath rawDest)) "spec.html")
    | none => some (urljoinModel (urljoinModel nikonZIndexUri (pyPath rawDest)) "spec.html")

/-- The keyword parameters assembled for the progress/pool machinery
(`common_ppp` in `main`): the optional `max_workers` entry plus the fixed
`unit` and `desc` entries. -/
structure PoolParams where
  maxWorkers : Option Int
  unitLabel : String
  desc : String
  deriving DecidableEq, Repr

/-- `main`'s worker resolution: `max_workers <= 0` puts
`multiprocessing.cpu_count()` in the parameters; any value other than `1`
puts the value itself; exactly `1` leaves the entry unset (the sequential
branch is taken instead). -/
def resolvePoolParams (maxWorkers cpuCount : Int) : PoolParams :=
  { maxWorkers :=
      if maxWorkers ≤ 0 then some cpuCount
      else if ¬ (maxWorkers = 1) then some maxWorkers else none,
    unitLabel := "models", desc := "Nikon Lens" }

/-- `_read_nikon_lens`: the per-task worker body — read the page (the
reader for the missing `nikon.read_lens` is a parameter; `None` marks a
converter, i.e. not a product) and carry forward an already assigned
identifier found under the lowercased name. -/
def readAndReconcile (readLens : String × String → Option Lens)
    (origIdMap : List (String × String)) (t : String × String) : Option Lens :=
  match readLens t with
  | none => none
  | some lens => some (reconcileId origIdMap lens)

/-- The `max_workers == 1` branch: a plain list comprehension under a
`tqdm` progress bar — sequential, order-preserving. -/
def seqFetch {α β : Type} (f : α → Option β) (tasks : List α) : List (Option β) :=
  tasks.map f

/-- The pooled branch: `tqdm.contrib.concurrent.process_map`, an external
collaborator whose contract is a bounded-pool, per-item independent,
order-preserving map; the pool parameters do not influence the collected
values. -/
def pooledFetch {α β : Type} (f : α → Option β) (tasks : List α)
    (_p : PoolParams) : List (Option β) :=
  tasks.map f

/-- Zero-padding on the left (decimal rendering helper). -/
def padZeros (s : List Char) (n : ℕ) : List Char :=
  List.replicate (n - s.length) '0' ++ s

/-- Decimal digits of a natural number. -/
def natDigits (n : ℕ) : List Char :=
  (Nat.repr n).data

/-- Models the `float_format="%g"` rendering of `to_csv` for the
nonnegative short decimals this dataset holds: the shortest plain decimal
form, no trailing zeros (values needing scientific notation or more than
six fractional digits do not occur). -/
def formatGPos (q : ℚ) : String :=
  match (List.range 7).find? (fun k => (q * mkRat (10 ^ k) 1).den = 1) with
  | some k =>
    let m := (q * mkRat (10 ^ k) 1).num.toNat
    if k = 0 then String.mk (natDigits m)
    else String.mk (natDigits (m / 10 ^ k) ++ '.' :: padZeros (natDigits (m % 10 ^ k)) k)
  | none => "?"

/-- `%g` with a sign. -/
def formatG (q : ℚ) : String :=
  if q < 0 then String.mk ('-' :: (formatGPos (-q)).data) else formatGPos q

/-- One CSV row of the snapshot, fields in the schema order of the lens
model (identifier, name, brand, mount, the numeric attributes, keywords). -/
def renderLens (l : Lens) : String :=
  joinC [l.id, l.name, l.brand, l.mount, formatG l.minFocalLength,
         formatG l.maxFocalLength, formatG l.minFValue, formatG l.maxFValue,
         formatG l.minFocusDistance, l.keywords]

/-- The header row of the snapshot (the column labels of the lens schema;
only `ID` and `Name` are pinned down by the sources). -/
def csvHeader : String :=
  "ID,Name,Brand,Mount,Min. Focal Length,Max. Focal Length,Min. F Value,Max. F Value,Min. Focus Distance,Keywords"

/-- `df.to_csv(index=None, float_format="%g")`: header plus one
newline-terminated row per record. -/
def renderCsv (ls : List Lens) : String :=
  String.mk (((csvHeader :: ls.map renderLens).map (fun s => s.data ++ ['\n'])).flatten)

/-- Shallow embedding of `main` from `camera_lens_database/fetch.py`: load
the prior identifiers, resolve the pool parameters, run the per-task
worker either sequentially (`max_workers == 1`) or through the pool,
drop the `None` results, sort, and render the snapshot. -/
def mainFetch (readLens : String × String → Option Lens) (maxWorkers cpuCount : Int)
    (origRows : List (String × String)) (lensInfo : List (String × String)) : String :=
  let origIdMap := buildOrigIdMap origRows
  let ppp := resolvePoolParams maxWorkers cpuCount
  let specOrNones :=
    if maxWorkers = 1 then seqFetch (readAndReconcile readLens origIdMap) lensInfo
    else pooledFetch (readAndReconcile readLens origIdMap) lensInfo ppp
  let specs := specOrNones.filterMap (fun x => x)
  renderCsv (sortLenses specs)

/-! ## Lemmas and the claims -/

/-- `(e >>= f) = ok b` unfolded for `Except`. -/
theorem exceptBind_ok_iff {α β : Type} {e : Except ScrapeError α}
    {f : α → Except ScrapeError β} {b : β} :
    (e >>= f) = Except.ok b ↔ ∃ a, e = Except.ok a ∧ f a = Except.ok b := by
  cases e with
  | error err => simp [Bind.bind, Except.bind]
  | ok a => simp [Bind.bind, Except.bind]

/-- The mount vocabulary can only produce `"Nikon Z"`. -/
theorem mountNames_eq {v m : String} (h : mountNames v = some m) : m = "Nikon Z" := by
  unfold mountNames at h
  split_ifs at h <;> simp_all

/-- Every pair the Nikon Z term recognizer yields targets a slot other than
`name` and `brand`, and a `mount` pair always carries `"Nikon Z"`. -/
theorem recognize_pair_slots {k v : String} {l : List (SpecIdx × PyVal)}
    (h : recognizeNikonZTerm k v = Except.ok l) :
    ∀ p ∈ l, p.1 ≠ SpecIdx.name ∧ p.1 ≠ SpecIdx.brand ∧
      (p.1 = SpecIdx.mount → p.2 = PyVal.str "Nikon Z") := by
  unfold recognizeNikonZTerm at h
  split_ifs at h
  · cases hm : mountNames v with
    | none => rw [hm] at h; cases h
    | some mnt =>
      rw [hm] at h
      simp only [Except.ok.injEq] at h
      subst h
      have hz := mountNames_eq hm
      subst hz
      intro p hp
      simp only [List.mem_singleton] at hp
      subst hp
      simp
  · cases hm : matchFocalRange v.data with
    | none => rw [hm] at h; cases h
    | some gg =>
      rw [hm] at h
      simp only [Except.ok.injEq] at h
      subst h
      intro p hp
      rcases List.mem_pair.mp hp with hp | hp <;> subst hp <;> simp
  · rw [exceptBind_ok_iff] at h
    obtain ⟨ds, hds, h⟩ := h
    cases hmin : minList ds with
    | none => rw [hmin] at h; cases h
    | some mn =>
      rw [hmin] at h
      simp only [Except.ok.injEq] at h
      subst h
      intro p hp
      simp only [List.mem_singleton] at hp
      subst hp
      simp
  · cases hm : matchFSlash v.data with
    | none => rw [hm] at h; cases h
    | some g =>
      rw [hm] at h
      simp only [Except.ok.injEq] at h
      subst h
      intro p hp
      simp only [List.mem_singleton] at hp
      subst hp
      simp
  · cases hm : matchFSlash v.data with
    | none => rw [hm] at h; cases h
    | some g =>
      rw [hm] at h
      simp only [Except.ok.injEq] at h
      subst h
      intro p hp
      simp only [List.mem_singleton] at hp
      subst hp
      simp
  · simp only [Except.ok.injEq] at h
    subst h
    intro p hp
    cases hp

/-- Slot discipline lifted over the whole spec-table loop. -/
theorem mapM_readRow_slots {rows : List (List String × List String)}
    {ls : List (List (SpecIdx × PyVal))} (h : rows.mapM readRow = Except.ok ls) :
    ∀ p ∈ ls.flatten, p.1 ≠ SpecIdx.name ∧ p.1 ≠ SpecIdx.brand ∧
      (p.1 = SpecIdx.mount → p.2 = PyVal.str "Nikon Z") := by
  induction rows generalizing ls with
  | nil =>
    simp only [List.mapM_nil] at h
    simp only [pure, Except.pure, Except.ok.injEq] at h
    subst h
    intro p hp
    cases hp
  | cons row rest ih =>
    rw [List.mapM_cons] at h
    rw [exceptBind_ok_iff] at h
    obtain ⟨b, hb, h⟩ := h
    rw [exceptBind_ok_iff] at h
    obtain ⟨bs, hbs, h⟩ := h
    simp only [pure, Except.pure, Except.ok.injEq] at h
    subst h
    intro p hp
    rw [List.flatten_cons, List.mem_append] at hp
    cases hp with
    | inl hpb =>
      unfold readRow at hb
      split at hb
      · exact recognize_pair_slots hb p hpb
      · cases hb
    | inr hps => exact ih hbs p hps

/-- Shape of the assembled `pairs` list: the fixed name and brand pairs in
front, followed by recognizer output obeying the slot discipline. -/
theorem assembledPairs_shape {name : String} {rows : List (List String × List String)}
    {pairs : List (SpecIdx × PyVal)} (h : assembledPairs name rows = Except.ok pairs) :
    ∃ rest, pairs = (SpecIdx.name, PyVal.str name) :: (SpecIdx.brand, PyVal.str "Nikon") :: rest ∧
      ∀ p ∈ rest, p.1 ≠ SpecIdx.name ∧ p.1 ≠ SpecIdx.brand ∧
        (p.1 = SpecIdx.mount → p.2 = PyVal.str "Nikon Z") := by
  unfold assembledPairs at h
  rw [exceptBind_ok_iff] at h
  obtain ⟨recs, hrecs, h⟩ := h
  simp only [pure, Except.pure, Except.ok.injEq] at h
  exact ⟨recs.flatten, h.symm, mapM_readRow_slots hrecs⟩

/-- `keyGet` succeeds exactly when the slot is present. -/
theorem keyGet_ok_iff {pairs : List (SpecIdx × PyVal)} {k : SpecIdx} {v : PyVal} :
    keyGet pairs k = Except.ok v ↔ dGet pairs k = some v := by
  unfold keyGet
  cases h : dGet pairs k <;> simp [h]

/-- Dictionary lookup skips a pair with a different key. -/
theorem dGet_cons_of_ne {pairs : List (SpecIdx × PyVal)} {k : SpecIdx}
    {q : SpecIdx × PyVal} (hne : q.1 ≠ k) : dGet (q :: pairs) k = dGet pairs k := by
  simp [dGet, List.filter_cons, hne]

/-- A successful dictionary lookup comes from some pair with that key. -/
theorem dGet_mem {pairs : List (SpecIdx × PyVal)} {k : SpecIdx} {v : PyVal}
    (h : dGet pairs k = some v) : ∃ p ∈ pairs, p.1 = k ∧ p.2 = v := by
  unfold dGet at h
  cases hg : (pairs.filter (fun p => p.1 = k)).getLast? with
  | none => rw [hg] at h; cases h
  | some q =>
    rw [hg] at h
    simp only [Option.map_some', Option.some.injEq] at h
    have hq := List.mem_of_getLast?_eq_some hg
    rw [List.mem_filter] at hq
    exact ⟨q, hq.1, by simpa using hq.2, h⟩

/-- With the two fixed pairs in front and no later `name` pair, the `name`
lookup returns the display name. -/
theorem dGet_base_name {rest : List (SpecIdx × PyVal)} {a b : PyVal}
    (h : ∀ p ∈ rest, p.1 ≠ SpecIdx.name) :
    dGet ((SpecIdx.name, a) :: (SpecIdx.brand, b) :: rest) SpecIdx.name = some a := by
  have hnil : rest.filter (fun p => p.1 = SpecIdx.name) = [] := by
    rw [List.filter_eq_nil_iff]
    intro p hp
    simpa using h p hp
  simp [dGet, List.filter_cons, hnil]

/-- Likewise for the `brand` lookup. -/
theorem dGet_base_brand {rest : List (SpecIdx × PyVal)} {a b : PyVal}
    (h : ∀ p ∈ rest, p.1 ≠ SpecIdx.brand) :
    dGet ((SpecIdx.name, a) :: (SpecIdx.brand, b) :: rest) SpecIdx.brand = some b := by
  have hnil : rest.filter (fun p => p.1 = SpecIdx.brand) = [] := by
    rw [List.filter_eq_nil_iff]
    intro p hp
    simpa using h p hp
  simp [dGet, List.filter_cons, hnil]

/-- A successful record construction pins the string fields to their slot
lookups and forces every one of the eight required slots to be present. -/
theorem buildLensSpec_ok_spec {pairs : List (SpecIdx × PyVal)} {spec : LensSpec}
    (h : buildLensSpec pairs = Except.ok spec) :
    (∀ k, (dGet pairs k).isSome = true) ∧
    ∃ vN vB vM, dGet pairs SpecIdx.name = some vN ∧ asStr vN = Except.ok spec.name ∧
      dGet pairs SpecIdx.brand = some vB ∧ asStr vB = Except.ok spec.brand ∧
      dGet pairs SpecIdx.mount = some vM ∧ asStr vM = Except.ok spec.mount := by
  unfold buildLensSpec at h
  rw [exceptBind_ok_iff] at h
  obtain ⟨vN, hvN, h⟩ := h
  rw [exceptBind_ok_iff] at h
  obtain ⟨vB, hvB, h⟩ := h
  rw [exceptBind_ok_iff] at h
  obtain ⟨vM, hvM, h⟩ := h
  rw [exceptBind_ok_iff] at h
  obtain ⟨v4, hv4, h⟩ := h
  rw [exceptBind_ok_iff] at h
  obtain ⟨v5, hv5, h⟩ := h
  rw [exceptBind_ok_iff] at h
  obtain ⟨v6, hv6, h⟩ := h
  rw [exceptBind_ok_iff] at h
  obtain ⟨v7, hv7, h⟩ := h
  rw [exceptBind_ok_iff] at h
  obtain ⟨v8, hv8, h⟩ := h
  rw [exceptBind_ok_iff] at h
  obtain ⟨nm, hnm, h⟩ := h
  rw [exceptBind_ok_iff] at h
  obtain ⟨br, hbr, h⟩ := h
  rw [exceptBind_ok_iff] at h
  obtain ⟨mt, hmt, h⟩ := h
  rw [exceptBind_ok_iff] at h
  obtain ⟨x4, hx4, h⟩ := h
  rw [exceptBind_ok_iff] at h
  obtain ⟨x5, hx5, h⟩ := h
  rw [exceptBind_ok_iff] at h
  obtain ⟨x6, hx6, h⟩ := h
  rw [exceptBind_ok_iff] at h
  obtain ⟨x7, hx7, h⟩ := h
  rw [exceptBind_ok_iff] at h
  obtain ⟨x8, hx8, h⟩ := h
  simp only [pure, Except.pure, Except.ok.injEq] at h
  subst h
  refine ⟨?allKeys, vN, vB, vM, keyGet_ok_iff.mp hvN, hnm, keyGet_ok_iff.mp hvB, hbr,
    keyGet_ok_iff.mp hvM, hmt⟩
  intro k
  cases k
  · rw [keyGet_ok_iff.mp hvN]; rfl
  · rw [keyGet_ok_iff.mp hvB]; rfl
  · rw [keyGet_ok_iff.mp hvM]; rfl
  · rw [keyGet_ok_iff.mp hv4]; rfl
  · rw [keyGet_ok_iff.mp hv5]; rfl
  · rw [keyGet_ok_iff.mp hv6]; rfl
  · rw [keyGet_ok_iff.mp hv7]; rfl
  · rw [keyGet_ok_iff.mp hv8]; rfl

/-- A successful read factors through a successful construction from the
assembled pairs. -/
theorem readNikonZLens_ok_build {name : String} {rows : List (List String × List String)}
    {pairs : List (SpecIdx × PyVal)} {spec : LensSpec}
    (h : assembledPairs name rows = Except.ok pairs)
    (hr : readNikonZLens name rows = Except.ok spec) :
    buildLensSpec pairs = Except.ok spec := by
  unfold readNikonZLens at hr
  rw [exceptBind_ok_iff] at hr
  obtain ⟨p2, hp2, hb⟩ := hr
  rw [h] at hp2
  injection hp2 with hp2
  subst hp2
  exact hb

/-- C10: every record successfully returned by the Nikon Z page reader has
its name equal to the display name passed in and its brand equal to
`"Nikon"` (the recognizer never yields a pair for either slot, so no
spec-table row can overwrite them), and its mount equal to `"Nikon Z"`,
the only value the mount vocabulary can produce. -/
theorem nikonZ_reader_fixed_fields {name : String}
    {rows : List (List String × List String)} {spec : LensSpec}
    (h : readNikonZLens name rows = Except.ok spec) :
    spec.name = name ∧ spec.brand = "Nikon" ∧ spec.mount = "Nikon Z" := by
  unfold readNikonZLens at h
  rw [exceptBind_ok_iff] at h
  obtain ⟨pairs, hpairs, hbuild⟩ := h
  obtain ⟨rest, hshape, hrest⟩ := assembledPairs_shape hpairs
  subst hshape
  obtain ⟨-, vN, vB, vM, hN, haN, hB, haB, hM, haM⟩ := buildLensSpec_ok_spec hbuild
  have hNv := @dGet_base_name rest (PyVal.str name) (PyVal.str "Nikon")
    (fun p hp => (hrest p hp).1)
  rw [hNv] at hN
  injection hN with hN
  subst hN
  have hBv := @dGet_base_brand rest (PyVal.str name) (PyVal.str "Nikon")
    (fun p hp => (hrest p hp).2.1)
  rw [hBv] at hB
  injection hB with hB
  subst hB
  rw [dGet_cons_of_ne (by simp), dGet_cons_of_ne (by simp)] at hM
  obtain ⟨p, hpmem, hpk, hpv⟩ := dGet_mem hM
  have hz := (hrest p hpmem).2.2 hpk
  rw [hz] at hpv
  subst hpv
  unfold asStr at haN haB haM
  injection haN with haN
  injection haB with haB
  injection haM with haM
  exact ⟨haN.symm, haB.symm, haM.symm⟩

/-- Witness for C10: the fixed-field property evaluated on a concrete,
successfully read page. -/
theorem nikonZ_reader_fixed_fields_witness :
    readNikonZLens "NIKKOR Z 24-70mm f/2.8 S" sampleRows = Except.ok sampleSpec ∧
    sampleSpec.name = "NIKKOR Z 24-70mm f/2.8 S" ∧ sampleSpec.brand = "Nikon" ∧
    sampleSpec.mount = "Nikon Z" :=
  ⟨rfl, @nikonZ_reader_fixed_fields "NIKKOR Z 24-70mm f/2.8 S" sampleRows sampleSpec rfl⟩

/-- C2 counterexample: a duplicate-field page (nine recognized pairs for the
eight required slots) is folded last-write-wins and accepted as a valid
record rather than excluded as "not a product"; and a page with a missing
field (seven pairs) raises a `KeyError`-style task failure rather than the
non-error "not a product" outcome.  `read_nikon_z_lens` has no
"not a product" outcome at all. -/
theorem assembler_count_gate_counterexample :
    (assembledPairs "X" dupRows).map List.length = Except.ok 9 ∧
    readNikonZLens "X" dupRows =
      Except.ok { name := "X", brand := "Nikon", mount := "Nikon Z",
                  minFocalLength := 24, maxFocalLength := 70,
                  minFValue := 16, maxFValue := mkRat 28 10,
                  minFocusDistance := 500 } ∧
    (assembledPairs "X" (sampleRows.take 4)).map List.length = Except.ok 7 ∧
    readNikonZLens "X" (sampleRows.take 4) =
      Except.error (ScrapeError.keyErrorIdx SpecIdx.maxFValue) :=
  ⟨rfl, rfl, rfl, rfl⟩

/-- C2 amended: the Nikon Z assembler returns a record exactly when, after
last-write-wins folding of the assembled pairs, every one of the eight
required slots is present (and its value coerces); a missing slot makes the
read fail with an error — a task failure, not a "not a product" skip — and
surplus duplicate pairs are folded rather than rejected. -/
theorem assembler_completeness (name : String) (rows : List (List String × List String))
    (pairs : List (SpecIdx × PyVal)) (h : assembledPairs name rows = Except.ok pairs) :
    (isOkB (readNikonZLens name rows) = true → ∀ k, (dGet pairs k).isSome = true) ∧
    (∀ k, dGet pairs k = none → isOkB (readNikonZLens name rows) = false) := by
  constructor
  · intro hok k
    cases hr : readNikonZLens name rows with
    | error e => rw [hr] at hok; cases hok
    | ok spec => exact (buildLensSpec_ok_spec (readNikonZLens_ok_build h hr)).1 k
  · intro k hk
    cases hr : readNikonZLens name rows with
    | error e => rfl
    | ok spec =>
      have := (buildLensSpec_ok_spec (readNikonZLens_ok_build h hr)).1 k
      rw [hk] at this
      cases this

/-- Splitting `takeWhile`/`dropWhile` at a boundary where the predicate
turns false. -/
theorem takeWhile_append_of (p : Char → Bool) (a r : List Char)
    (ha : ∀ c ∈ a, p c = true) (hr : ∀ c, r.head? = some c → p c = false) :
    (a ++ r).takeWhile p = a ∧ (a ++ r).dropWhile p = r := by
  induction a with
  | nil =>
    cases r with
    | nil => exact ⟨rfl, rfl⟩
    | cons c cs =>
      have hc := hr c rfl
      simp [List.takeWhile_cons, List.dropWhile_cons, hc]
  | cons c cs ih =>
    have hc := ha c (by simp)
    have ih2 := ih (fun x hx => ha x (by simp [hx]))
    simp [List.takeWhile_cons, List.dropWhile_cons, hc, ih2.1, ih2.2]

/-- A `[\d\.]` character is never whitespace. -/
theorem isSpace_false_of_digitDot {c : Char} (h : isDigitDot c = true) :
    isSpace c = false := by
  by_cases h1 : c = ' '
  · subst h1; exact absurd h (by decide)
  by_cases h2 : c = '\t'
  · subst h2; exact absurd h (by decide)
  by_cases h3 : c = '\n'
  · subst h3; exact absurd h (by decide)
  by_cases h4 : c = '\r'
  · subst h4; exact absurd h (by decide)
  simp [isSpace, h1, h2, h3, h4]

/-- The range pattern accepts `<digits>mm - <digits>mm` and captures the two
digit groups. -/
theorem matchFocalRange_range (a b : List Char) (ha : a ≠ []) (hb : b ≠ [])
    (hda : ∀ c ∈ a, isDigitDot c = true) (hdb : ∀ c ∈ b, isDigitDot c = true) :
    matchFocalRange (a ++ 'm' :: 'm' :: ' ' :: '-' :: ' ' :: (b ++ ['m', 'm'])) =
      some (a, b) := by
  obtain ⟨bh, bt, rfl⟩ : ∃ bh bt, b = bh :: bt := by
    cases b with
    | nil => exact absurd rfl hb
    | cons bh bt => exact ⟨bh, bt, rfl⟩
  have h1 := takeWhile_append_of isDigitDot a
    ('m' :: 'm' :: ' ' :: '-' :: ' ' :: (bh :: bt ++ ['m', 'm'])) hda
    (fun c hc => by injection hc with hc; subst hc; decide)
  have h2 := takeWhile_append_of isDigitDot (bh :: bt) ['m', 'm'] hdb
    (fun c hc => by injection hc with hc; subst hc; decide)
  have hsp : isSpace bh = false := isSpace_false_of_digitDot (hdb bh (by simp))
  simp only [List.cons_append] at h2
  unfold matchFocalRange
  simp only [h1.1, h1.2]
  rw [if_neg ha]
  have t1 : isSpace ' ' = true := rfl
  have t2 : isSpace '-' = false := rfl
  simp [List.dropWhile_cons, List.cons_append, t1, t2, hsp, h2.1, h2.2]

/-- The range pattern rejects a bare `<digits>mm`. -/
theorem matchFocalRange_single (a : List Char) (hda : ∀ c ∈ a, isDigitDot c = true) :
    matchFocalRange (a ++ ['m', 'm']) = none := by
  have h1 := takeWhile_append_of isDigitDot a ['m', 'm'] hda
    (fun c hc => by injection hc with hc; subst hc; decide)
  unfold matchFocalRange
  simp only [h1.1, h1.2]
  by_cases ha : a = []
  · rw [if_pos ha]
  · rw [if_neg ha]
    rfl

/-- C4 counterexample: the focal-length sub-grammar raises on a bare
`"24mm"` value instead of yielding `(24, 24)`. -/
theorem focal_single_counterexample :
    recognizeNikonZTerm "焦点距離" "24mm" =
      Except.error (ScrapeError.patternUnmatched "24mm") ∧
    recognizeNikonZTerm "焦点距離" "24mm" ≠
      Except.ok [(SpecIdx.minFocalLength, PyVal.str "24"),
                 (SpecIdx.maxFocalLength, PyVal.str "24")] :=
  ⟨rfl, by decide⟩

/-- C4 amended: a focal-length value `<digits>mm - <digits>mm` yields the
pair (min, max) of the two captured numbers, while a bare `<digits>mm`
value does not match the range pattern and raises the structured
`pattern unmatched` error instead of yielding an equal pair. -/
theorem focal_range_grammar (a b : List Char) (ha : a ≠ []) (hb : b ≠ [])
    (hda : ∀ c ∈ a, isDigitDot c = true) (hdb : ∀ c ∈ b, isDigitDot c = true) :
    recognizeNikonZTerm "焦点距離"
        (String.mk (a ++ 'm' :: 'm' :: ' ' :: '-' :: ' ' :: (b ++ ['m', 'm']))) =
      Except.ok [(SpecIdx.minFocalLength, PyVal.str (String.mk a)),
                 (SpecIdx.maxFocalLength, PyVal.str (String.mk b))] ∧
    recognizeNikonZTerm "焦点距離" (String.mk (a ++ ['m', 'm'])) =
      Except.error (ScrapeError.patternUnmatched (String.mk (a ++ ['m', 'm']))) := by
  have hdata : ∀ l : List Char, (String.mk l).data = l := fun l => rfl
  constructor
  · unfold recognizeNikonZTerm
    rw [if_neg (by decide), if_pos rfl, hdata,
      matchFocalRange_range a b ha hb hda hdb]
  · unfold recognizeNikonZTerm
    rw [if_neg (by decide), if_pos rfl, hdata, matchFocalRange_single a hda]

/-- Witness for the amended C4, at the spec example `"24mm - 70mm"` (and
`"24mm"` for the failing shape). -/
theorem focal_range_grammar_witness :
    recognizeNikonZTerm "焦点距離" "24mm - 70mm" =
      Except.ok [(SpecIdx.minFocalLength, PyVal.str "24"),
                 (SpecIdx.maxFocalLength, PyVal.str "70")] ∧
    recognizeNikonZTerm "焦点距離" "24mm" =
      Except.error (ScrapeError.patternUnmatched "24mm") := by
  have h := focal_range_grammar ['2', '4'] ['7', '0'] (by decide) (by decide)
    (by decide) (by decide)
  exact ⟨h.1, h.2⟩

/-- C5: behaviour of the minimum-focus-distance branch on a mixed-unit
composite value.  The unit group of the pattern `([\d\.]+)\s*(m)` captures
only `"m"`, even from the text `"250 mm"`, so every measurement is scaled
by 1000 and the computed minimum is 500 (0.5 m), not 250 (250 mm) as
unit-aware conversion would give. -/
theorem mixed_unit_distance_code_behaviour :
    findallNumM ("0.5 m、250 mm".data) =
      [(['0', '.', '5'], ['m']), (['2', '5', '0'], ['m'])] ∧
    recognizeNikonZTerm "最短撮影距離" "0.5 m、250 mm" =
      Except.ok [(SpecIdx.minFocusDistance, PyVal.num (mkRat 500 1))] ∧
    mkRat 500 1 ≠ mkRat 250 1 :=
  ⟨rfl, rfl, by decide⟩

/-- C7 counterexample: a `最短撮影距離` value with no parseable measurement
raises the unstructured empty-`min` `ValueError`, which does not identify
the raw text, instead of the structured `ScraperException`. -/
theorem mfd_unstructured_error_counterexample :
    recognizeNikonZTerm "最短撮影距離" "該当なし" =
      Except.error ScrapeError.valueErrorMinEmpty ∧
    ScrapeError.valueErrorMinEmpty ≠ ScrapeError.patternUnmatched "該当なし" :=
  ⟨rfl, by decide⟩

/-- A recognizer failure on the first spec-table row propagates out of
`read_nikon_z_lens` unchanged (the `try/except` there only logs and
re-raises). -/
theorem readNikonZLens_propagates (name th v : String)
    (rest : List (List String × List String)) (e : ScrapeError)
    (h : recognizeNikonZTerm th v = Except.error e) :
    readNikonZLens name (([th], [v]) :: rest) = Except.error e := by
  have hrow : readRow ([th], [v]) = Except.error e := h
  have hmap : (([th], [v]) :: rest).mapM readRow = Except.error e := by
    rw [List.mapM_cons, hrow]
    rfl
  unfold readNikonZLens assembledPairs
  rw [hmap]
  rfl

/-- C7 amended: a label matched by the grammar whose value fails the
focal-length or either aperture sub-pattern raises the structured
`ScraperException` naming the raw text, and any such error propagates to
fail the containing read; the minimum-focus-distance sub-grammar, however,
fails with the unstructured empty-`min` `ValueError`, which carries no raw
text. -/
theorem grammar_failure_errors (v : String)
    (hf : matchFocalRange v.data = none)
    (hs : matchFSlash v.data = none)
    (hd : findallNumM v.data = []) :
    recognizeNikonZTerm "焦点距離" v = Except.error (ScrapeError.patternUnmatched v) ∧
    recognizeNikonZTerm "最小絞り" v = Except.error (ScrapeError.patternUnmatched v) ∧
    recognizeNikonZTerm "最大絞り" v = Except.error (ScrapeError.patternUnmatched v) ∧
    recognizeNikonZTerm "最短撮影距離" v = Except.error ScrapeError.valueErrorMinEmpty ∧
    ∀ name th rest e, recognizeNikonZTerm th v = Except.error e →
      readNikonZLens name (([th], [v]) :: rest) = Except.error e := by
  refine ⟨?_, ?_, ?_, ?_, fun name th rest e he => readNikonZLens_propagates name th v rest e he⟩
  · unfold recognizeNikonZTerm
    rw [if_neg (by decide), if_pos rfl, hf]
  · unfold recognizeNikonZTerm
    rw [if_neg (by decide), if_neg (by decide), if_neg (by decide), if_pos rfl, hs]
  · unfold recognizeNikonZTerm
    rw [if_neg (by decide), if_neg (by decide), if_neg (by decide), if_neg (by decide),
      if_pos rfl, hs]
  · unfold recognizeNikonZTerm
    rw [if_neg (by decide), if_neg (by decide), if_pos rfl, hd]
    rfl

/-- Witness for the amended C7 at the value `"該当なし"`, which fails every
sub-pattern. -/
theorem grammar_failure_errors_witness :
    recognizeNikonZTerm "焦点距離" "該当なし" =
      Except.error (ScrapeError.patternUnmatched "該当なし") ∧
    readNikonZLens "L" [(["最短撮影距離"], ["該当なし"])] =
      Except.error ScrapeError.valueErrorMinEmpty := by
  have h := grammar_failure_errors "該当なし" rfl rfl rfl
  exact ⟨h.1, h.2.2.2.2 "L" "最短撮影距離" [] ScrapeError.valueErrorMinEmpty h.2.2.2.1⟩

/-- Witness for the amended C2: on the four-row page the assembled pairs
lack the `maxFValue` slot and the read indeed fails. -/
theorem assembler_completeness_witness :
    isOkB (readNikonZLens "X" (sampleRows.take 4)) = false :=
  (assembler_completeness "X" (sampleRows.take 4)
      ((SpecIdx.name, PyVal.str "X") :: (SpecIdx.brand, PyVal.str "Nikon") ::
        [(SpecIdx.mount, PyVal.str "Nikon Z"),
         (SpecIdx.minFocalLength, PyVal.str "24"),
         (SpecIdx.maxFocalLength, PyVal.str "70"),
         (SpecIdx.minFocusDistance, PyVal.num (mkRat 500 1)),
         (SpecIdx.minFValue, PyVal.str "22")]) rfl).2
    SpecIdx.maxFValue rfl

/-- Membership in an updated dict comes from the new binding or the old
dict (with the old value possibly replaced). -/
theorem mem_dictUpd {m : List (String × String)} {k v : String}
    {p : String × String} (hp : p ∈ dictUpd m k v) : p = (k, v) ∨ p ∈ m := by
  unfold dictUpd at hp
  split at hp
  · rw [List.mem_map] at hp
    obtain ⟨q, hq, he⟩ := hp
    by_cases hqk : q.1 = k
    · rw [if_pos hqk] at he
      exact Or.inl he.symm
    · rw [if_neg hqk] at he
      exact Or.inr (he ▸ hq)
  · rw [List.mem_append] at hp
    cases hp with
    | inl h => exact Or.inr h
    | inr h => exact Or.inl (by simpa using h)

/-- Provenance through a fold of dict insertions keyed and valued by
projections of the input list. -/
theorem foldl_dictUpd_provenance (kf vf : String × String → String) :
    ∀ (l acc : List (String × String)),
      ∀ p ∈ l.foldl (fun m q => dictUpd m (kf q) (vf q)) acc,
        p ∈ acc ∨ ∃ q ∈ l, p = (kf q, vf q) := by
  intro l
  induction l with
  | nil => intro acc p hp; exact Or.inl hp
  | cons q rest ih =>
    intro acc p hp
    rw [List.foldl_cons] at hp
    rcases ih (dictUpd acc (kf q) (vf q)) p hp with hacc | ⟨r, hr, he⟩
    · rcases mem_dictUpd hacc with he | hm
      · exact Or.inr ⟨q, by simp, he⟩
      · exact Or.inl hm
    · exact Or.inr ⟨r, by simp [hr], he⟩

/-- After an insertion the inserted key is present. -/
theorem dictUpd_haskey (m : List (String × String)) (k v : String) :
    ∃ p ∈ dictUpd m k v, p.1 = k := by
  unfold dictUpd
  split
  · rename_i hany
    rw [List.any_eq_true] at hany
    obtain ⟨q, hq, hqk⟩ := hany
    refine ⟨(k, v), List.mem_map.mpr ⟨q, hq, ?_⟩, rfl⟩
    rw [if_pos (by simpa using hqk)]
  · exact ⟨(k, v), List.mem_append.mpr (Or.inr (by simp)), rfl⟩

/-- An insertion never removes a key. -/
theorem dictUpd_keeps_key {m : List (String × String)} (k v : String) {k0 : String}
    (h : ∃ p ∈ m, p.1 = k0) : ∃ p ∈ dictUpd m k v, p.1 = k0 := by
  obtain ⟨p, hp, hpk⟩ := h
  unfold dictUpd
  split
  · by_cases hpkk : p.1 = k
    · refine ⟨(k, v), List.mem_map.mpr ⟨p, hp, by rw [if_pos hpkk]⟩, by rw [← hpkk, hpk]⟩
    · exact ⟨p, List.mem_map.mpr ⟨p, hp, by rw [if_neg hpkk]⟩, hpk⟩
  · exact ⟨p, List.mem_append.mpr (Or.inl hp), hpk⟩

/-- A key fed into the fold (or already in the accumulator) is present in
the result. -/
theorem foldl_dictUpd_haskey (kf vf : String × String → String) :
    ∀ (l acc : List (String × String)) (k0 : String),
      ((∃ p ∈ acc, p.1 = k0) ∨ ∃ q ∈ l, kf q = k0) →
      ∃ p ∈ l.foldl (fun m q => dictUpd m (kf q) (vf q)) acc, p.1 = k0 := by
  intro l
  induction l with
  | nil =>
    intro acc k0 h
    rcases h with h | ⟨q, hq, -⟩
    · exact h
    · cases hq
  | cons q rest ih =>
    intro acc k0 h
    rw [List.foldl_cons]
    apply ih
    rcases h with h | ⟨r, hr, he⟩
    · exact Or.inl (dictUpd_keeps_key (kf q) (vf q) h)
    · rcases List.mem_cons.mp hr with he2 | hm
      · subst he2
        exact Or.inl (he ▸ dictUpd_haskey acc (kf r) (vf r))
      · exact Or.inr ⟨r, hm, he⟩

/-- `get` misses exactly when no binding has the key. -/
theorem dictGetS_none_iff {m : List (String × String)} {k : String} :
    dictGetS m k = none ↔ ∀ p ∈ m, p.1 ≠ k := by
  unfold dictGetS
  simp [List.find?_eq_none]

/-- A `get` hit is a binding of the dict. -/
theorem dictGetS_mem {m : List (String × String)} {k v : String}
    (h : dictGetS m k = some v) : (k, v) ∈ m := by
  unfold dictGetS at h
  cases hf : m.find? (fun p => p.1 = k) with
  | none => rw [hf] at h; cases h
  | some q =>
    rw [hf] at h
    simp only [Option.map_some', Option.some.injEq] at h
    have hq := List.mem_of_find?_eq_some hf
    have hk := List.find?_some hf
    simp only [decide_eq_true_eq] at hk
    have : q = (k, v) := by
      cases q
      simp only [Prod.mk.injEq]
      exact ⟨hk, h⟩
    exact this ▸ hq

/-- C1 amended: when some prior-dataset row bears the record's case-folded
name, the reconciled identifier is the case-folded (lowercased) identifier
of such a row — the freshly generated identifier is replaced; when no row
matches, the record is returned unchanged, keeping the fresh identifier. -/
theorem id_carry_forward (rows : List (String × String)) (l : Lens) :
    ((∃ r ∈ rows, pyLower r.1 = pyLower l.name) →
      ∃ r ∈ rows, pyLower r.1 = pyLower l.name ∧
        (reconcileId (buildOrigIdMap rows) l).id = pyLower r.2) ∧
    ((∀ r ∈ rows, pyLower r.1 ≠ pyLower l.name) →
      reconcileId (buildOrigIdMap rows) l = l) := by
  constructor
  · intro hex
    obtain ⟨r, hr, hkey⟩ := hex
    have hk1 : ∃ p ∈ dictOfList rows, p.1 = r.1 :=
      foldl_dictUpd_haskey Prod.fst Prod.snd rows [] r.1 (Or.inr ⟨r, hr, rfl⟩)
    obtain ⟨p1, hp1, hp1k⟩ := hk1
    have hk2 : ∃ p ∈ buildOrigIdMap rows, p.1 = pyLower l.name := by
      apply foldl_dictUpd_haskey (fun q => pyLower q.1) (fun q => pyLower q.2)
        (dictOfList rows) [] (pyLower l.name)
      exact Or.inr ⟨p1, hp1, by rw [hp1k, hkey]⟩
    obtain ⟨p2, hp2, hp2k⟩ := hk2
    cases hv : dictGetS (buildOrigIdMap rows) (pyLower l.name) with
    | none => exact absurd hp2k (dictGetS_none_iff.mp hv p2 hp2)
    | some v =>
      have hmem := dictGetS_mem hv
      rcases foldl_dictUpd_provenance (fun q => pyLower q.1) (fun q => pyLower q.2)
          (dictOfList rows) [] _ hmem with hnil | ⟨q, hq, he⟩
      · cases hnil
      · rcases foldl_dictUpd_provenance Prod.fst Prod.snd rows [] q hq with hnil | ⟨r2, hr2, he2⟩
        · cases hnil
        · have hfst := congrArg Prod.fst he
          have hsnd := congrArg Prod.snd he
          have hfst2 := congrArg Prod.fst he2
          have hsnd2 := congrArg Prod.snd he2
          simp only at hfst hsnd hfst2 hsnd2
          refine ⟨r2, hr2, ?_, ?_⟩
          · rw [← hfst2]
            exact hfst.symm
          · unfold reconcileId
            rw [hv]
            rw [hsnd2] at hsnd
            exact hsnd
  · intro hall
    cases hv : dictGetS (buildOrigIdMap rows) (pyLower l.name) with
    | none =>
      unfold reconcileId
      rw [hv]
    | some v =>
      exfalso
      have hmem := dictGetS_mem hv
      rcases foldl_dictUpd_provenance (fun q => pyLower q.1) (fun q => pyLower q.2)
          (dictOfList rows) [] _ hmem with hnil | ⟨q, hq, he⟩
      · cases hnil
      · rcases foldl_dictUpd_provenance Prod.fst Prod.snd rows [] q hq with hnil | ⟨r2, hr2, he2⟩
        · cases hnil
        · have hfst := congrArg Prod.fst he
          have hfst2 := congrArg Prod.fst he2
          simp only at hfst hfst2
          rw [hfst2] at hfst
          exact hall r2 hr2 hfst.symm

/-- C1 counterexample: the prior dataset stores the identifier `"ABC-001"`
for this name, but the reconciled record carries `"abc-001"` — the
identifier is lowercased on the way through the lookup, so the output does
not equal the identifier stored in the prior dataset. -/
theorem id_carry_forward_counterexample :
    pyLower "Lens A" = pyLower lensA.name ∧
    (reconcileId (buildOrigIdMap [("Lens A", "ABC-001")]) lensA).id = "abc-001" ∧
    "abc-001" ≠ "ABC-001" :=
  ⟨rfl, rfl, by decide⟩

/-- Witness for the amended C1: a matching row yields its lowercased
identifier; an unmatched record keeps its fresh identifier. -/
theorem id_carry_forward_witness :
    (reconcileId (buildOrigIdMap [("Lens A", "ABC-001")]) lensA).id = "abc-001" ∧
    reconcileId (buildOrigIdMap [("Lens A", "ABC-001")]) { lensA with name := "other" } =
      { lensA with name := "other" } := by
  constructor
  · obtain ⟨r, hr, -, hid⟩ := (id_carry_forward [("Lens A", "ABC-001")] lensA).1
      ⟨("Lens A", "ABC-001"), by simp, rfl⟩
    have hre : r = ("Lens A", "ABC-001") := by simpa using hr
    rw [hre] at hid
    exact hid.trans rfl
  · refine (id_carry_forward [("Lens A", "ABC-001")] _).2 ?_
    intro r hr
    have hre : r = ("Lens A", "ABC-001") := by simpa using hr
    rw [hre]
    decide

/-- Splitting a comma-free chunk gives back the chunk. -/
theorem pySplitComma_no_comma (p : List Char) (h : ¬ ',' ∈ p) : pySplitComma p = [p] := by
  induction p with
  | nil => rfl
  | cons c cs ih =>
    have hc : ¬ c = ',' := fun he => h (by simp [he])
    have ihe := ih (fun hm => h (by simp [hm]))
    rw [pySplitComma, if_neg hc, ihe]

/-- Splitting at the first comma after a comma-free chunk peels the chunk. -/
theorem pySplitComma_append (p rest : List Char) (h : ¬ ',' ∈ p) :
    pySplitComma (p ++ ',' :: rest) = p :: pySplitComma rest := by
  induction p with
  | nil =>
    rw [List.nil_append, pySplitComma, if_pos rfl]
  | cons c cs ih =>
    have hc : ¬ c = ',' := fun he => h (by simp [he])
    have ihe := ih (fun hm => h (by simp [hm]))
    rw [List.cons_append, pySplitComma, if_neg hc, ihe]

/-- `split(",")` is a retraction of `",".join` on non-empty lists of
comma-free chunks. -/
theorem pySplitComma_join (parts : List (List Char)) (hne : parts ≠ [])
    (h : ∀ p ∈ parts, ¬ ',' ∈ p) :
    pySplitComma (pyJoinComma parts) = parts := by
  induction parts with
  | nil => exact absurd rfl hne
  | cons p ps ih =>
    cases ps with
    | nil =>
      rw [pyJoinComma]
      exact pySplitComma_no_comma p (h p (by simp))
    | cons q qs =>
      rw [show pyJoinComma (p :: q :: qs) = p ++ ',' :: pyJoinComma (q :: qs) from rfl,
        pySplitComma_append p _ (h p (by simp))]
      rw [ih (by simp) (fun x hx => h x (by simp [hx]))]

/-- String half of the roundtrip. -/
theorem splitC_joinC (parts : List String) (hne : parts ≠ [])
    (h : ∀ p ∈ parts, ¬ ',' ∈ p.data) :
    splitC (joinC parts) = parts := by
  unfold splitC joinC
  have hmapne : parts.map String.data ≠ [] := by
    intro he
    exact hne (List.map_eq_nil_iff.mp he)
  have hmk : pySplitComma (pyJoinComma (parts.map String.data)) = parts.map String.data :=
    pySplitComma_join _ hmapne (by
      intro x hx
      rw [List.mem_map] at hx
      obtain ⟨s, hs, he⟩ := hx
      exact he ▸ h s hs)
  rw [hmk, List.map_map]
  have : (String.mk ∘ String.data) = id := funext (fun s => rfl)
  rw [this, List.map_id]

/-- C3 amended: when keywords are inferred, the written keyword string is
the comma-join of the inferred keywords followed by the prior keyword
tokens (the prior string split on `", "`), with empty entries dropped;
reading the output back as comma tokens therefore yields exactly
inferred-then-prior, so the output token set is a superset of the prior
(non-empty) token set.  Duplicates are not removed and the order is
deterministic (inferred first, then prior order) — not sorted. -/
theorem keyword_union (inferred : List String) (l : Lens)
    (h1 : inferred ≠ [])
    (h2 : ∀ p ∈ inferred, ¬ p = "" ∧ ¬ ',' ∈ p.data)
    (h3 : ∀ p ∈ splitCS l.keywords, ¬ ',' ∈ p.data) :
    splitC (applyInferredKeywords inferred l).keywords =
      inferred ++ (splitCS l.keywords).filter (fun s => ¬ s = "") ∧
    ∀ p ∈ splitCS l.keywords, ¬ p = "" →
      p ∈ splitC (applyInferredKeywords inferred l).keywords := by
  have hfilter : (inferred ++ splitCS l.keywords).filter (fun s => ¬ s = "") =
      inferred ++ (splitCS l.keywords).filter (fun s => ¬ s = "") := by
    rw [List.filter_append]
    congr 1
    rw [List.filter_eq_self]
    intro s hs
    simpa using (h2 s hs).1
  have hne2 : (inferred ++ splitCS l.keywords).filter (fun s => ¬ s = "") ≠ [] := by
    rw [hfilter]
    intro he
    rcases List.append_eq_nil.mp he with ⟨he1, -⟩
    exact h1 he1
  have hcf : ∀ p ∈ (inferred ++ splitCS l.keywords).filter (fun s => ¬ s = ""),
      ¬ ',' ∈ p.data := by
    intro p hp
    have hp2 := List.mem_of_mem_filter hp
    rcases List.mem_append.mp hp2 with hi | hs
    · exact (h2 p hi).2
    · exact h3 p hs
  have hkw : (applyInferredKeywords inferred l).keywords =
      joinC ((inferred ++ splitCS l.keywords).filter (fun s => ¬ s = "")) := by
    unfold applyInferredKeywords
    rw [if_neg h1]
  constructor
  · rw [hkw, splitC_joinC _ hne2 hcf, hfilter]
  · intro p hp hpe
    rw [hkw, splitC_joinC _ hne2 hcf, hfilter]
    apply List.mem_append.mpr
    refine Or.inr (List.mem_filter.mpr ⟨hp, ?_⟩)
    simpa using hpe

/-- Witness for the amended C3: inferring `"zoom"` over prior
`"macro, silent"` writes `"zoom,macro,silent"`, whose tokens are
inferred-then-prior and contain every prior token. -/
theorem keyword_union_witness :
    splitC (applyInferredKeywords ["zoom"] lensK).keywords = ["zoom", "macro", "silent"] ∧
    "macro" ∈ splitC (applyInferredKeywords ["zoom"] lensK).keywords := by
  have h := keyword_union ["zoom"] lensK (by decide) (by decide) (by decide)
  exact ⟨h.1.trans rfl, h.2 "macro" (by decide) (by decide)⟩

/-- C3 counterexample: inferring `"zoom"` for a record already tagged
`"zoom"` writes `"zoom,zoom"` — the output keyword list has a duplicate
(and is not a deduplicated, sorted rendering of a set). -/
theorem keyword_union_counterexample :
    (applyInferredKeywords ["zoom"] lensZ).keywords = "zoom,zoom" ∧
    ¬ (splitC (applyInferredKeywords ["zoom"] lensZ).keywords).Nodup :=
  ⟨rfl, by decide⟩

/-- The key comparison is transitive. -/
theorem lensLe_trans : ∀ a b c : Lens, lensLe a b → lensLe b c → lensLe a c := by
  intro a b c hab hbc
  rw [lensLe, decide_eq_true_eq] at hab hbc ⊢
  exact le_trans hab hbc

/-- The key comparison is total. -/
theorem lensLe_total : ∀ a b : Lens, lensLe a b || lensLe b a := by
  intro a b
  rw [lensLe, lensLe]
  rcases le_total (lensSortKey a) (lensSortKey b) with h | h
  · simp [h]
  · simp [h]

/-- The key comparison is reflexive. -/
theorem lensLe_refl (a : Lens) : lensLe a a = true := by
  rw [lensLe, decide_eq_true_eq]

/-- In a list sorted by `lensLe`, an element strictly below another (the
other is not below it) occurs before every occurrence of the other. -/
theorem pair_sublist_of_sorted {l : List Lens}
    (hs : l.Pairwise (fun a b => lensLe a b = true)) :
    ∀ {x y : Lens}, x ∈ l → y ∈ l → lensLe y x = false → [x, y].Sublist l := by
  induction l with
  | nil => intro x y hx _ _; cases hx
  | cons a t ih =>
    intro x y hx hy hxy
    rw [List.pairwise_cons] at hs
    rcases List.mem_cons.mp hx with hxa | hxt
    · subst hxa
      rcases List.mem_cons.mp hy with hya | hyt
      · rw [hya, lensLe_refl] at hxy
        cases hxy
      · exact (List.singleton_sublist.mpr hyt).cons₂ x
    · rcases List.mem_cons.mp hy with hya | hyt
      · rw [hya, hs.1 x hxt] at hxy
        cases hxy
      · exact (ih hs.2 hxt hyt hxy).cons a

/-- Records agreeing on brand, mount and both numeric range fields, with a
strictly code-point-smaller name, compare strictly below. -/
theorem lensLe_false_of_name_lt {a b : Lens}
    (hb : a.brand = b.brand) (hm : a.mount = b.mount)
    (h3 : a.minFocalLength = b.minFocalLength) (h4 : a.maxFocalLength = b.maxFocalLength)
    (hn : a.name.data < b.name.data) :
    lensLe b a = false := by
  have hlt : lensSortKey a < lensSortKey b := by
    unfold lensSortKey
    rw [Prod.Lex.lt_iff]
    refine Or.inr ⟨by rw [hb], ?_⟩
    rw [Prod.Lex.lt_iff]
    refine Or.inr ⟨by rw [hm], ?_⟩
    rw [Prod.Lex.lt_iff]
    refine Or.inr ⟨by rw [h3], ?_⟩
    rw [Prod.Lex.lt_iff]
    exact Or.inr ⟨by rw [h4], hn⟩
  rw [lensLe, decide_eq_false_iff_not]
  exact not_le_of_lt hlt

/-- What the snapshot sorter actually does: a permutation of the collected
records, ordered by the raw composite key (brand, mount, the two numeric
focal-length fields, name — none lowercased, since the key lambda's
condition never holds); the merge sort is stable (a pair already in key
order keeps its relative order, so ties keep the original collection
order); and of two records with equal brand and mount and equal numeric
range fields, the one with the code-point-smaller raw name sorts first. -/
theorem snapshot_sort_properties (l : List Lens) :
    (sortLenses l).Perm l ∧
    (sortLenses l).Pairwise (fun a b => lensLe a b = true) ∧
    (∀ a b : Lens, [a, b].Sublist l → lensLe a b = true → [a, b].Sublist (sortLenses l)) ∧
    (∀ a b : Lens, a ∈ l → b ∈ l →
      a.brand = b.brand → a.mount = b.mount →
      a.minFocalLength = b.minFocalLength → a.maxFocalLength = b.maxFocalLength →
      a.name.data < b.name.data →
      [a, b].Sublist (sortLenses l)) := by
  have hsorted := @List.sorted_mergeSort Lens lensLe lensLe_trans lensLe_total l
  refine ⟨List.mergeSort_perm l lensLe, hsorted, ?_, ?_⟩
  · intro a b hab hle
    exact List.pair_sublist_mergeSort lensLe_trans lensLe_total hle hab
  · intro a b ha hb h1 h2 h3 h4 hn
    have hmem : ∀ x : Lens, x ∈ l → x ∈ sortLenses l := by
      intro x hx
      exact List.mem_mergeSort.mpr hx
    exact pair_sublist_of_sorted hsorted (hmem a ha) (hmem b hb)
      (lensLe_false_of_name_lt h1 h2 h3 h4 hn)

/-- C8: behaviour of the sorter at the failing input.  The key lambda
`lambda c: c.str.lower() if str(c) in STR_COLUMNS else c` never lowercases
anything (`str(c)` is the repr of the column `Series`, not a column name),
so the sort is case-sensitive: with equal brand, mount and focal range,
`"Beta"` (`'B'` = U+0042) sorts before `"alpha"` (`'a'` = U+0061), even
though `"alpha"` is the case-insensitively smaller name the claim requires
to sort first. -/
theorem sort_case_sensitive_behaviour :
    (pyLower lensAlpha.name).data < (pyLower lensBeta.name).data ∧
    lensLe lensBeta lensAlpha = true ∧
    lensLe lensAlpha lensBeta = false ∧
    sortLenses [lensAlpha, lensBeta] = [lensBeta, lensAlpha] := by
  refine ⟨by decide, by decide, by decide, ?_⟩
  have hsorted := @List.sorted_mergeSort Lens lensLe lensLe_trans lensLe_total
    [lensAlpha, lensBeta]
  have hsub : [lensBeta, lensAlpha].Sublist (sortLenses [lensAlpha, lensBeta]) :=
    pair_sublist_of_sorted hsorted (List.mem_mergeSort.mpr (by decide))
      (List.mem_mergeSort.mpr (by decide)) (by decide)
  have hlen : [lensBeta, lensAlpha].length = (sortLenses [lensAlpha, lensBeta]).length := by
    rw [sortLenses, List.length_mergeSort]
    rfl
  exact (hsub.eq_of_length hlen).symm

/-- C6: the enumerator's host check compares `urlparse(href).hostname`
against the entire index-page URL, which no hostname can ever equal, so
every absolute link is warn-skipped — including one on the expected host,
which the claim (and the code's own warning text, "not on the same
server") says should yield a fetch task.  Relative links (hostname-less)
do yield tasks, and `javascript:` links are skipped separately. -/
theorem enumerator_host_check_behaviour :
    pyHostname "https://www.nikon-image.com/products/nikkor/zmount/z50/index.html" =
      some "www.nikon-image.com" ∧
    anchorAction "https://www.nikon-image.com/products/nikkor/zmount/z50/index.html" =
      none ∧
    anchorAction "/products/nikkor/zmount/z50/index.html" =
      some "https://www.nikon-image.com/products/nikkor/zmount/z50/spec.html" ∧
    anchorAction "z50/index.html" =
      some "https://www.nikon-image.com/products/nikkor/zmount/z50/spec.html" ∧
    anchorAction "javascript:void(0);" = none :=
  ⟨rfl, rfl, rfl, rfl, rfl⟩

/-- C9: with the per-item reader deterministic and the pool an
order-preserving map, the emitted snapshot is a pure function of the prior
dataset and the pages — two runs with unchanged inputs are byte-identical
and the worker-count parameter (and the machine's CPU count) never
changes the output; the sequential branch computes exactly what the
pooled branch computes; and the dispatch follows the documented rule:
nonpositive selects the CPU count, `1` selects the sequential branch
(no pool bound is set), any other positive value bounds the pool. -/
theorem worker_count_independence (readLens : String × String → Option Lens)
    (w1 c1 w2 c2 : Int) (origRows lensInfo : List (String × String)) :
    mainFetch readLens w1 c1 origRows lensInfo =
      mainFetch readLens w2 c2 origRows lensInfo ∧
    (∀ (f : String × String → Option Lens) (tasks : List (String × String))
        (p : PoolParams), seqFetch f tasks = pooledFetch f tasks p) ∧
    (w1 ≤ 0 → (resolvePoolParams w1 c1).maxWorkers = some c1) ∧
    (w1 = 1 → (resolvePoolParams w1 c1).maxWorkers = none) ∧
    (1 < w1 → (resolvePoolParams w1 c1).maxWorkers = some w1) := by
  refine ⟨?_, fun f tasks _p => rfl, ?_, ?_, ?_⟩
  · unfold mainFetch seqFetch pooledFetch
    split_ifs <;> rfl
  · intro h
    unfold resolvePoolParams
    rw [if_pos h]
  · intro h
    subst h
    rfl
  · intro h
    unfold resolvePoolParams
    rw [if_neg (by omega), if_pos (by omega)]

/-- Witness for C9 at concrete worker counts: sequential (1) versus pooled
(8) runs agree on a concrete input, and the three dispatch cases evaluate
as stated. -/
theorem worker_count_independence_witness :
    mainFetch (fun t => some { lensP with name := t.1 }) 1 4 [("Alpha", "ID-7")]
        [("Alpha", "u1"), ("beta", "u2")] =
      mainFetch (fun t => some { lensP with name := t.1 }) 8 2 [("Alpha", "ID-7")]
        [("Alpha", "u1"), ("beta", "u2")] ∧
    (resolvePoolParams (-1) 4).maxWorkers = some 4 ∧
    (resolvePoolParams 1 4).maxWorkers = none ∧
    (resolvePoolParams 3 4).maxWorkers = some 3 :=
  ⟨(worker_count_independence (fun t => some { lensP with name := t.1 }) 1 4 8 2
      [("Alpha", "ID-7")] [("Alpha", "u1"), ("beta", "u2")]).1,
   (worker_count_independence (fun _ => none) (-1) 4 0 0 [] []).2.2.1 (by decide),
   (worker_count_independence (fun _ => none) 1 4 0 0 [] []).2.2.2.1 rfl,
   (worker_count_independence (fun _ => none) 3 4 0 0 [] []).2.2.2.2 (by decide)⟩

end Cldb
